import Mathlib

/-!
Verification of the LSP-snippet parser (`helix-core/src/snippet.rs`).

The snippet grammar of the source is embedded shallowly: input text is a
`List Char`, and a parser for `α` is a pure function from the input slice to
either success (remaining slice, value) or failure carrying back a slice.
The generic parser-combinator toolkit lives in a module
(`parser_combinator`) that is not part of the source sample; each of its
combinators below is modelled from the spec's contracts (section 4.2).
The grammar rules, the AST types, the three fixed matchers and the entry
point `parse` are translated directly from the source.

Rust's `usize` is modelled as 64 bits wide: `str::parse::<usize>()` succeeds
exactly on values below `2 ^ 64`.
-/

namespace Snip

inductive CaseChange where
  | upcase
  | downcase
  | capitalize
deriving DecidableEq, Repr

inductive FormatItem where
  | text (t : List Char)
  | capture (n : Nat)
  | caseChange (n : Nat) (c : CaseChange)
  | conditional (n : Nat) (ifText : Option (List Char)) (elseText : Option (List Char))
deriving DecidableEq, Repr

structure Regex where
  value : List Char
  replacement : List FormatItem
  options : Option (List Char)
deriving DecidableEq, Repr

inductive SnippetElement where
  | tabstop (n : Nat)
  | placeholder (n : Nat) (value : SnippetElement)
  | choice (n : Nat) (choices : List (List Char))
  | variableE (name : List Char) (defaultVal : Option (List Char)) (rx : Option Regex)
  | text (t : List Char)
deriving DecidableEq, Repr

/-- Modelled from the spec: the parser type of the `parser_combinator`
module (absent from the source sample). A parser is a pure function from an
input slice to success (remaining slice, value) or failure handing back a
slice. -/
abbrev Parser (α : Type) : Type := List Char → Except (List Char) (List Char × α)

/-- Modelled from the spec: literal match — succeeds iff the input starts
with the given exact text; consumes it. -/
def lit (l : List Char) : Parser (List Char) := fun s =>
  if l.isPrefixOf s then .ok (s.drop l.length, l) else .error s

/-- Modelled from the spec: `map` — transforms a successful value with a
pure function; failure passes through unchanged. -/
def pmap (f : α → β) (p : Parser α) : Parser β := fun s =>
  match p s with
  | .ok (r, a) => .ok (r, f a)
  | .error e => .error e

/-- Modelled from the spec: `filter_map` — like map, but the function may
reject the value, turning success into failure with the input unconsumed. -/
def pfilterMap (p : Parser α) (f : α → Option β) : Parser β := fun s =>
  match p s with
  | .ok (r, a) =>
    match f a with
    | some b => .ok (r, b)
    | none => .error s
  | .error e => .error e

/-- Modelled from the spec: `seq` of two parsers — succeeds only if both
succeed; on any failure the input is restored to its pre-sequence position.
The source's variadic `seq!` is embedded as left-nested pairs. -/
def pseq (p : Parser α) (q : Parser β) : Parser (α × β) := fun s =>
  match p s with
  | .ok (r, a) =>
    match q r with
    | .ok (r2, b) => .ok (r2, (a, b))
    | .error _ => .error s
  | .error e => .error e

/-- Modelled from the spec: ordered alternation (`or`, and the source's
`choice!` when nested) — first success wins; if both fail, the failure of
the second alternative is returned. -/
def por (p q : Parser α) : Parser α := fun s =>
  match p s with
  | .ok x => .ok x
  | .error _ => q s

/-- Modelled from the spec: `right` — sequences two parsers, discards the
left result, keeps the right. -/
def right (p : Parser α) (q : Parser β) : Parser β := pmap Prod.snd (pseq p q)

/-- Modelled from the spec: `optional` — always succeeds, wrapping the
sub-parser's result as present/absent. -/
def optionalP (p : Parser α) : Parser (Option α) := fun s =>
  match p s with
  | .ok (r, a) => .ok (r, some a)
  | .error _ => .ok (s, none)

/-- Modelled from the spec: `take_until` — consumes the longest prefix of
characters that do not satisfy the predicate — corrected against the
source's own test suite: the spec claims the combinator may consume zero
characters and never fails, but the test `regex_capture_replace` requires
`optional(take_until(..))` to produce `None` on a zero-length match
(`options: None`), so `take_until` fails when the first character already
satisfies the predicate; it likewise fails when no character satisfies it. -/
def take_until (pr : Char → Bool) : Parser (List Char) := fun s =>
  if (s.takeWhile (fun c => !(pr c))).isEmpty || (s.dropWhile (fun c => !(pr c))).isEmpty
  then .error s
  else .ok (s.dropWhile (fun c => !(pr c)), s.takeWhile (fun c => !(pr c)))

/-- Iteration core of `one_or_more`. The fuel argument only bounds the
number of iterations so that the definition is total; it is instantiated
with the length of the remaining input, which never runs out because every
successful step of the grammar consumes at least one character (a parser
succeeding without consuming would make the source loop forever). -/
def manyAux (p : Parser α) : Nat → List Char → List α → List Char × List α
  | 0, s, acc => (s, acc.reverse)
  | n + 1, s, acc =>
    match p s with
    | .ok (r, a) => manyAux p n r (a :: acc)
    | .error _ => (s, acc.reverse)

/-- Modelled from the spec: `one_or_more` — repeatedly applies a parser
until it fails; requires at least one success; the final failing attempt's
unconsumed input becomes the continuation point. -/
def one_or_more (p : Parser α) : Parser (List α) := fun s =>
  match p s with
  | .ok (r, a) =>
    .ok ((manyAux p r.length r []).1, a :: (manyAux p r.length r []).2)
  | .error _ => .error s

/-- Iteration core of `sep`: zero or more occurrences of separator-then-
element. Fuel as in `manyAux`; each iteration consumes at least the
(non-empty) separator literal. -/
def sepAux (p : Parser α) (sl : List Char) : Nat → List Char → List α → List Char × List α
  | 0, s, acc => (s, acc.reverse)
  | n + 1, s, acc =>
    match pseq (lit sl) p s with
    | .ok (r, x) => sepAux p sl n r (x.2 :: acc)
    | .error _ => (s, acc.reverse)

/-- Modelled from the spec: separated list (`sep`) — one or more occurrences
of a parser, requiring the given separator literal between consecutive
occurrences. -/
def sep (p : Parser α) (sl : List Char) : Parser (List α) := fun s =>
  match p s with
  | .ok (r, a) =>
    .ok ((sepAux p sl r.length r []).1, a :: (sepAux p sl r.length r []).2)
  | .error _ => .error s

/-- Modelled from the spec: `reparse_as(outer, inner)` — `outer` carves out
a candidate substring; `inner` is then run against that substring alone and
must consume it entirely for success. -/
def reparse_as (outer : Parser (List Char)) (inner : Parser α) : Parser α := fun s =>
  match outer s with
  | .ok (r, frag) =>
    match inner frag with
    | .ok ([], a) => .ok (r, a)
    | .ok (_ :: _, _) => .error s
    | .error _ => .error s
  | .error e => .error e

/-- The closing brace character (kept out of string literals). -/
def rbrace : Char := Char.ofNat 125

def isRbrace (c : Char) : Bool := c == rbrace

def isSlash (c : Char) : Bool := c == '/'

/-- First character of the `VARIABLE` matcher `[_a-zA-Z]`. -/
def identStart (c : Char) : Bool := c.isAlpha || c == '_'

/-- Continuation characters of the `VARIABLE` matcher `[_a-zA-Z0-9]`. -/
def identCont (c : Char) : Bool := c.isAlphanum || c == '_'

/-- The anchored matcher `DIGIT = ^[0-9]+`: longest non-empty prefix of
decimal digits. -/
def patternDigit : Parser (List Char) := fun s =>
  match s.takeWhile Char.isDigit with
  | [] => .error s
  | c :: cs => .ok (s.dropWhile Char.isDigit, c :: cs)

/-- The anchored matcher `VARIABLE = ^[_a-zA-Z][_a-zA-Z0-9]*`. -/
def patternVar : Parser (List Char) := fun s =>
  match s with
  | [] => .error []
  | c :: cs =>
    if identStart c then .ok (cs.dropWhile identCont, c :: cs.takeWhile identCont)
    else .error (c :: cs)

/-- The anchored matcher `TEXT = ^[^\x24]+`: longest non-empty prefix of
characters other than the dollar sign. -/
def patternText : Parser (List Char) := fun s =>
  match s.takeWhile (fun c => !(c == '$')) with
  | [] => .error s
  | c :: cs => .ok (s.dropWhile (fun c => !(c == '$')), c :: cs)

/-- Numeric value denoted by a run of decimal digits. -/
def digitsVal (s : List Char) : Nat := s.foldl (fun n c => n * 10 + (c.toNat - 48)) 0

/-- `usize::MAX + 1` on a 64-bit platform. -/
def usizeBound : Nat := 2 ^ 64

/-- Rust's `str::parse::<usize>().ok()`: succeeds on a non-empty all-digit
string whose denoted value fits in `usize`, and fails otherwise (overflow
included). -/
def parseUsize (s : List Char) : Option Nat :=
  if s.isEmpty then none
  else if s.all Char.isDigit then
    if digitsVal s < usizeBound then some (digitsVal s) else none
  else none

/-- `digit()` of the source: `filter_map(pattern(&DIGIT), |s| s.parse().ok())`. -/
def digit : Parser Nat := pfilterMap patternDigit parseUsize

/-- `var()` of the source: `pattern(&VARIABLE)`. -/
def var : Parser (List Char) := patternVar

/-- `case_change()` of the source. -/
def case_change : Parser CaseChange :=
  por (pmap (fun _ => CaseChange.upcase) (lit ("upcase".toList)))
    (por (pmap (fun _ => CaseChange.downcase) (lit ("downcase".toList)))
      (pmap (fun _ => CaseChange.capitalize) (lit ("capitalize".toList))))

/-- The literal `"${"`. -/
def obr : List Char := ("$\x7b".toList)

/-- The literal `"}"`. -/
def cbr : List Char := ("\x7d".toList)

/-- Format alternative `'$' int`. -/
def format1 : Parser FormatItem := pmap FormatItem.capture (right (lit ("$".toList)) digit)

/-- Format alternative `'${' int '}'`. -/
def format2 : Parser FormatItem :=
  pmap (fun x => FormatItem.capture x.1.2) (pseq (pseq (lit obr) digit) (lit cbr))

/-- Format alternative `'${' int ':/' case_change '}'`. -/
def format3 : Parser FormatItem :=
  pmap (fun x => FormatItem.caseChange x.1.1.1.2 x.1.2)
    (pseq (pseq (pseq (pseq (lit obr) digit) (lit (":/".toList))) case_change) (lit cbr))

/-- Format alternative `'${' int ':+' if '}'`. -/
def format4 : Parser FormatItem :=
  pmap (fun x => FormatItem.conditional x.1.1.1.2 (some x.1.2) none)
    (pseq (pseq (pseq (pseq (lit obr) digit) (lit (":+".toList))) (take_until isRbrace)) (lit cbr))

/-- Format alternative `'${' int ':?' if ':' else '}'`. -/
def format5 : Parser FormatItem :=
  pmap (fun x => FormatItem.conditional x.1.1.1.1.2 (some x.1.1.2) (some x.2.1))
    (pseq
      (pseq (pseq (pseq (pseq (lit obr) digit) (lit (":?".toList))) (take_until (fun c => c == ':'))) (lit (":".toList)))
      (pseq (take_until isRbrace) (lit cbr)))

/-- Format alternative `'${' int ':' '-'? else '}'`. -/
def format6 : Parser FormatItem :=
  pmap (fun x => FormatItem.conditional x.1.1.1.1.2 none (some x.1.2))
    (pseq (pseq (pseq (pseq (pseq (lit obr) digit) (lit (":".toList))) (optionalP (lit ("-".toList)))) (take_until isRbrace)) (lit cbr))

/-- Format fallback: any text up to the next dollar sign. -/
def format7 : Parser FormatItem := pmap FormatItem.text patternText

/-- `format()` of the source: ordered alternation of the seven format
alternatives, fallback text last. -/
def format : Parser FormatItem :=
  por format1 (por format2 (por format3 (por format4 (por format5 (por format6 format7)))))

/-- The replacement sub-parser of `regex()`: the fragment up to the next
`/` must re-parse in full as one or more format items. -/
def replacementP : Parser (List FormatItem) :=
  reparse_as (take_until isSlash) (one_or_more format)

/-- `regex()` of the source:
`/` value `/` replacement `/` options? — producing a `Regex`. -/
def regex : Parser Regex :=
  pmap (fun x => { value := x.1.1.1.1.2, replacement := x.1.1.2, options := x.2 })
    (pseq
      (pseq (pseq (pseq (pseq (lit ("/".toList)) (take_until isSlash)) (lit ("/".toList))) replacementP) (lit ("/".toList)))
      (optionalP (take_until isRbrace)))

/-- `tabstop()` of the source: `'$' int` or `'${' int '}'`. -/
def tabstop : Parser SnippetElement :=
  pmap SnippetElement.tabstop
    (por (right (lit ("$".toList)) digit)
      (pmap (fun x => x.1.2) (pseq (pseq (lit obr) digit) (lit cbr))))

/-- The nested-value sub-parser of `placeholder()`: scan up to the next
closing brace, run the full grammar on the captured fragment and keep only
the first produced element. -/
def placeholderValue (anyP : Parser SnippetElement) : Parser SnippetElement :=
  pfilterMap (take_until isRbrace) (fun frag =>
    match anyP frag with
    | .ok pr => some pr.2
    | .error _ => none)

/-- `placeholder()` of the source: `'${' int ':' value '}'`, parameterised
by the `anything` parser used on the captured fragment. -/
def placeholder (anyP : Parser SnippetElement) : Parser SnippetElement :=
  pmap (fun x => SnippetElement.placeholder x.1.1.1.2 x.1.2)
    (pseq (pseq (pseq (pseq (lit obr) digit) (lit (":".toList))) (placeholderValue anyP)) (lit cbr))

/-- One choice alternative: scan up to the next `,` or `|`. -/
def choiceAlt : Parser (List Char) := take_until (fun c => c == ',' || c == '|')

/-- `choice()` of the source: `'${' int '|' text (',' text)* '|}'`. -/
def choice : Parser SnippetElement :=
  pmap (fun x => SnippetElement.choice x.1.1.1.2 x.1.2)
    (pseq (pseq (pseq (pseq (lit obr) digit) (lit ("|".toList))) (sep choiceAlt (",".toList))) (lit ("|\x7d".toList)))

/-- Variable alternative `'$' var`. -/
def variable1 : Parser SnippetElement :=
  pmap (fun n => SnippetElement.variableE n none none) (right (lit ("$".toList)) var)

/-- Variable alternative `'${' var ':' default '}'`. -/
def variable2 : Parser SnippetElement :=
  pmap (fun x => SnippetElement.variableE x.1.1.1.2 (some x.1.2) none)
    (pseq (pseq (pseq (pseq (lit obr) var) (lit (":".toList))) (take_until isRbrace)) (lit cbr))

/-- Variable alternative `'${' var regex '}'`. -/
def variable3 : Parser SnippetElement :=
  pmap (fun x => SnippetElement.variableE x.1.1.2 none (some x.1.2))
    (pseq (pseq (pseq (lit obr) var) regex) (lit cbr))

/-- `variable()` of the source: ordered alternation of the three variable
forms. -/
def variableP : Parser SnippetElement := por variable1 (por variable2 variable3)

/-- `text()` of the source: the `TEXT` matcher mapped into the AST. -/
def text : Parser SnippetElement := pmap SnippetElement.text patternText

/-- `anything()` of the source: ordered alternation tabstop, placeholder,
choice, variable, text. The fuel bounds the recursion depth of nested
placeholders; `parse` supplies more fuel than any input can use, since each
nesting level strictly shrinks the fragment. -/
def anything : Nat → Parser SnippetElement
  | 0 => fun s => .error s
  | n + 1 => por tabstop (por (placeholder (anything n)) (por choice (por variableP text)))

/-- `snippet()` of the source: `one_or_more(anything())`. -/
def snippet : Parser (List SnippetElement) := fun s =>
  one_or_more (anything (s.length + 1)) s

/-- `parse` of the source: run `snippet` on the input and keep only the
produced elements, discarding the unconsumed remainder. -/
def parse (s : List Char) : Except (List Char) (List SnippetElement) :=
  (snippet s).map Prod.snd

end Snip

namespace Snip

/-- A parser fails cleanly when every failure hands back the original
input slice unmodified. -/
def FailsClean (p : Parser α) : Prop := ∀ s e, p s = .error e → e = s

lemma failsClean_lit (l : List Char) : FailsClean (lit l) := by
  intro s e h
  unfold lit at h
  split at h
  · cases h
  · cases h
    rfl

lemma failsClean_pmap {p : Parser α} (f : α → β) (hp : FailsClean p) :
    FailsClean (pmap f p) := by
  intro s e h
  unfold pmap at h
  split at h
  · cases h
  · rename_i e2 heq
    cases h
    exact hp s e heq

lemma failsClean_pfilterMap {p : Parser α} (f : α → Option β) (hp : FailsClean p) :
    FailsClean (pfilterMap p f) := by
  intro s e h
  unfold pfilterMap at h
  split at h
  · split at h
    · cases h
    · cases h
      rfl
  · rename_i e2 heq
    cases h
    exact hp s e heq

lemma failsClean_pseq {p : Parser α} {q : Parser β} (hp : FailsClean p) :
    FailsClean (pseq p q) := by
  intro s e h
  unfold pseq at h
  split at h
  · split at h
    · cases h
    · cases h
      rfl
  · rename_i e2 heq
    cases h
    exact hp s e heq

lemma failsClean_por {p q : Parser α} (hq : FailsClean q) : FailsClean (por p q) := by
  intro s e h
  unfold por at h
  split at h
  · cases h
  · exact hq s e h

lemma failsClean_right {p : Parser α} {q : Parser β} (hp : FailsClean p) :
    FailsClean (right p q) :=
  failsClean_pmap _ (failsClean_pseq hp)

lemma failsClean_take_until (pr : Char → Bool) : FailsClean (take_until pr) := by
  intro s e h
  unfold take_until at h
  split at h
  · cases h
    rfl
  · cases h

lemma failsClean_one_or_more (p : Parser α) : FailsClean (one_or_more p) := by
  intro s e h
  unfold one_or_more at h
  split at h
  · cases h
  · cases h
    rfl

lemma failsClean_sep (p : Parser α) (sl : List Char) : FailsClean (sep p sl) := by
  intro s e h
  unfold sep at h
  split at h
  · cases h
  · cases h
    rfl

lemma failsClean_reparse {outer : Parser (List Char)} {inner : Parser α}
    (ho : FailsClean outer) : FailsClean (reparse_as outer inner) := by
  intro s e h
  unfold reparse_as at h
  split at h
  · split at h
    · cases h
    · cases h
      rfl
    · cases h
      rfl
  · rename_i e2 heq
    cases h
    exact ho s e heq

lemma failsClean_patternDigit : FailsClean patternDigit := by
  intro s e h
  unfold patternDigit at h
  split at h
  · cases h; rfl
  · cases h

lemma failsClean_patternVar : FailsClean patternVar := by
  intro s e h
  unfold patternVar at h
  split at h
  · cases h; rfl
  · split at h
    · cases h
    · cases h; rfl

lemma failsClean_patternText : FailsClean patternText := by
  intro s e h
  unfold patternText at h
  split at h
  · cases h; rfl
  · cases h

lemma failsClean_digit : FailsClean digit :=
  failsClean_pfilterMap _ failsClean_patternDigit

lemma failsClean_case_change : FailsClean case_change :=
  failsClean_por (failsClean_por (failsClean_pmap _ (failsClean_lit _)))

lemma failsClean_format : FailsClean format := by
  refine failsClean_por (failsClean_por (failsClean_por (failsClean_por
    (failsClean_por (failsClean_por ?_)))))
  exact failsClean_pmap _ failsClean_patternText

lemma failsClean_regex : FailsClean regex :=
  failsClean_pmap _ (failsClean_pseq (failsClean_pseq (failsClean_pseq
    (failsClean_pseq (failsClean_pseq (failsClean_lit _))))))

lemma failsClean_tabstop : FailsClean tabstop :=
  failsClean_pmap _ (failsClean_por (failsClean_pmap _
    (failsClean_pseq (failsClean_pseq (failsClean_lit _)))))

lemma failsClean_placeholder (anyP : Parser SnippetElement) :
    FailsClean (placeholder anyP) :=
  failsClean_pmap _ (failsClean_pseq (failsClean_pseq (failsClean_pseq
    (failsClean_pseq (failsClean_lit _)))))

lemma failsClean_choice : FailsClean choice :=
  failsClean_pmap _ (failsClean_pseq (failsClean_pseq (failsClean_pseq
    (failsClean_pseq (failsClean_lit _)))))

lemma failsClean_variableP : FailsClean variableP :=
  failsClean_por (failsClean_por (failsClean_pmap _
    (failsClean_pseq (failsClean_pseq (failsClean_pseq (failsClean_lit _))))))

lemma failsClean_text : FailsClean text :=
  failsClean_pmap _ failsClean_patternText

lemma failsClean_anything (n : Nat) : FailsClean (anything n) := by
  cases n with
  | zero => intro s e h; cases h; rfl
  | succ n =>
    exact failsClean_por (failsClean_por (failsClean_por
      (failsClean_por failsClean_text)))

end Snip

namespace Snip

lemma pmap_ok {f : α → β} {p : Parser α} {s r : List Char} {b : β}
    (h : pmap f p s = .ok (r, b)) : ∃ a, p s = .ok (r, a) ∧ b = f a := by
  unfold pmap at h
  split at h
  · rename_i r2 a heq
    simp only [Except.ok.injEq, Prod.mk.injEq] at h
    exact ⟨a, by rw [← h.1]; exact heq, h.2.symm⟩
  · cases h

lemma pfilterMap_ok {p : Parser α} {f : α → Option β} {s r : List Char} {b : β}
    (h : pfilterMap p f s = .ok (r, b)) : ∃ a, p s = .ok (r, a) ∧ f a = some b := by
  unfold pfilterMap at h
  split at h
  · rename_i r2 a heq
    split at h
    · rename_i b2 heq2
      simp only [Except.ok.injEq, Prod.mk.injEq] at h
      obtain ⟨h1, h2⟩ := h
      subst h1
      subst h2
      exact ⟨a, heq, heq2⟩
    · cases h
  · cases h

lemma pseq_ok {p : Parser α} {q : Parser β} {s r : List Char} {x : α × β}
    (h : pseq p q s = .ok (r, x)) :
    ∃ m, p s = .ok (m, x.1) ∧ q m = .ok (r, x.2) := by
  unfold pseq at h
  split at h
  · rename_i m a heq
    split at h
    · rename_i r2 b heq2
      simp only [Except.ok.injEq, Prod.mk.injEq] at h
      obtain ⟨h1, h2⟩ := h
      subst h1
      cases h2
      exact ⟨m, heq, heq2⟩
    · cases h
  · cases h

lemma por_ok {p q : Parser α} {s : List Char} {x : List Char × α}
    (h : por p q s = .ok x) : p s = .ok x ∨ q s = .ok x := by
  unfold por at h
  split at h
  · rename_i y heq
    cases h
    exact Or.inl heq
  · exact Or.inr h

lemma reparse_ok {outer : Parser (List Char)} {inner : Parser α} {s r : List Char} {a : α}
    (h : reparse_as outer inner s = .ok (r, a)) :
    ∃ frag, outer s = .ok (r, frag) ∧ inner frag = .ok ([], a) := by
  unfold reparse_as at h
  split at h
  · rename_i r2 frag heq
    split at h
    · rename_i a2 heq2
      simp only [Except.ok.injEq, Prod.mk.injEq] at h
      obtain ⟨h1, h2⟩ := h
      subst h1
      subst h2
      exact ⟨frag, heq, heq2⟩
    · cases h
    · cases h
  · cases h

lemma manyAux_mem {p : Parser α} :
    ∀ (n : Nat) (s : List Char) (acc : List α) (x : α),
      x ∈ (manyAux p n s acc).2 → x ∈ acc ∨ ∃ s2 r2, p s2 = .ok (r2, x) := by
  intro n
  induction n with
  | zero =>
    intro s acc x hx
    simp only [manyAux, List.mem_reverse] at hx
    exact Or.inl hx
  | succ n ih =>
    intro s acc x hx
    unfold manyAux at hx
    split at hx
    · rename_i r a heq
      rcases ih r (a :: acc) x hx with h1 | h2
      · rcases List.mem_cons.mp h1 with h3 | h4
        · exact Or.inr ⟨s, r, h3 ▸ heq⟩
        · exact Or.inl h4
      · exact Or.inr h2
    · simp only [List.mem_reverse] at hx
      exact Or.inl hx

lemma one_or_more_ok {p : Parser α} {s r : List Char} {l : List α}
    (h : one_or_more p s = .ok (r, l)) :
    l ≠ [] ∧ ∀ x ∈ l, ∃ s2 r2, p s2 = .ok (r2, x) := by
  unfold one_or_more at h
  split at h
  · rename_i r2 a heq
    simp only [Except.ok.injEq, Prod.mk.injEq] at h
    obtain ⟨h1, h2⟩ := h
    subst h2
    refine ⟨by simp, ?_⟩
    intro x hx
    rcases List.mem_cons.mp hx with h3 | h4
    · exact ⟨s, r2, h3 ▸ heq⟩
    · rcases manyAux_mem _ _ _ x h4 with h5 | h6
      · cases h5
      · exact h6
  · cases h

lemma pmap_err {f : α → β} {p : Parser α} {s e : List Char}
    (h : p s = .error e) : pmap f p s = .error e := by
  unfold pmap
  rw [h]

lemma pmap_ok_eq {f : α → β} {p : Parser α} {s r : List Char} {a : α}
    (h : p s = .ok (r, a)) : pmap f p s = .ok (r, f a) := by
  unfold pmap
  rw [h]

lemma pseq_err1 {p : Parser α} (q : Parser β) {s e : List Char}
    (h : p s = .error e) : pseq p q s = .error e := by
  unfold pseq
  rw [h]

lemma pseq_err2 {p : Parser α} {q : Parser β} {s m e : List Char} {a : α}
    (h1 : p s = .ok (m, a)) (h2 : q m = .error e) : pseq p q s = .error s := by
  unfold pseq
  rw [h1]
  dsimp only
  rw [h2]

lemma pseq_ok_eq {p : Parser α} {q : Parser β} {s m r : List Char} {a : α} {b : β}
    (h1 : p s = .ok (m, a)) (h2 : q m = .ok (r, b)) : pseq p q s = .ok (r, (a, b)) := by
  unfold pseq
  rw [h1]
  dsimp only
  rw [h2]

lemma por_err_left {p q : Parser α} {s e : List Char}
    (h : p s = .error e) : por p q s = q s := by
  unfold por
  rw [h]

lemma pfilterMap_err {p : Parser α} {f : α → Option β} {s e : List Char}
    (h : p s = .error e) : pfilterMap p f s = .error e := by
  unfold pfilterMap
  rw [h]

lemma right_err {p : Parser α} {q : Parser β} {s e : List Char}
    (h : p s = .error e) : right p q s = .error e := by
  unfold right
  exact pmap_err (pseq_err1 q h)

lemma lit_err_of_head {a : Char} {l s : List Char} (hhead : l.head? = some a)
    (hne : s ≠ []) (h : ∀ c ∈ s, c ≠ a) : lit l s = .error s := by
  cases l with
  | nil => cases hhead
  | cons b bs =>
    simp only [List.head?] at hhead
    cases hhead
    cases s with
    | nil => exact absurd rfl hne
    | cons c cs =>
      have h1 : c ≠ a := h c (List.mem_cons_self c cs)
      have hc : (a == c) = false := beq_eq_false_iff_ne.mpr (Ne.symm h1)
      unfold lit
      simp [List.isPrefixOf, hc]

end Snip

namespace Snip

lemma sep_ok_ne_nil {p : Parser α} {sl : List Char} {s r : List Char} {l : List α}
    (h : sep p sl s = .ok (r, l)) : l ≠ [] := by
  unfold sep at h
  split at h
  · simp only [Except.ok.injEq, Prod.mk.injEq] at h
    rw [← h.2]
    simp
  · cases h

lemma tabstop_shape {s r : List Char} {el : SnippetElement}
    (h : tabstop s = .ok (r, el)) : ∃ k, el = .tabstop k := by
  obtain ⟨a, _, hel⟩ := pmap_ok h
  exact ⟨a, hel⟩

lemma text_shape {s r : List Char} {el : SnippetElement}
    (h : text s = .ok (r, el)) : ∃ t, el = .text t := by
  obtain ⟨a, _, hel⟩ := pmap_ok h
  exact ⟨a, hel⟩

lemma choice_shape {s r : List Char} {el : SnippetElement}
    (h : choice s = .ok (r, el)) : ∃ k cs, el = .choice k cs ∧ cs ≠ [] := by
  obtain ⟨x, hx, hel⟩ := pmap_ok h
  obtain ⟨m1, hA, _⟩ := pseq_ok hx
  obtain ⟨m2, _, hB⟩ := pseq_ok hA
  exact ⟨x.1.1.1.2, x.1.2, hel, sep_ok_ne_nil hB⟩

lemma variable_shape {s r : List Char} {el : SnippetElement}
    (h : variableP s = .ok (r, el)) :
    ∃ nm d rx, el = .variableE nm d rx ∧ (d = none ∨ rx = none) := by
  unfold variableP at h
  rcases por_ok h with h1 | h1
  · obtain ⟨a, _, hel⟩ := pmap_ok h1
    exact ⟨a, none, none, hel, Or.inl rfl⟩
  rcases por_ok h1 with h2 | h2
  · obtain ⟨x, _, hel⟩ := pmap_ok h2
    exact ⟨x.1.1.1.2, some x.1.2, none, hel, Or.inr rfl⟩
  · obtain ⟨x, _, hel⟩ := pmap_ok h2
    exact ⟨x.1.1.2, none, some x.1.2, hel, Or.inl rfl⟩

lemma placeholder_shape {P : Parser SnippetElement} {s r : List Char} {el : SnippetElement}
    (h : placeholder P s = .ok (r, el)) :
    ∃ k v frag rem, el = .placeholder k v ∧ P frag = .ok (rem, v) := by
  unfold placeholder at h
  obtain ⟨x, hx, hel⟩ := pmap_ok h
  obtain ⟨m1, hA, _⟩ := pseq_ok hx
  obtain ⟨m2, _, hB⟩ := pseq_ok hA
  obtain ⟨frag, _, hfm⟩ := pfilterMap_ok hB
  cases hP2 : P frag with
  | ok pr =>
    rw [hP2] at hfm
    dsimp only at hfm
    simp only [Option.some.injEq] at hfm
    refine ⟨x.1.1.1.2, x.1.2, frag, pr.1, hel, ?_⟩
    rw [hP2, ← hfm]
  | error e2 =>
    rw [hP2] at hfm
    dsimp only at hfm
    cases hfm

/-- Mutual exclusion of a variable's default and regex fields, recursively
through nested placeholder values. -/
def varOk : SnippetElement → Bool
  | .variableE _ d r => d.isNone || r.isNone
  | .placeholder _ v => varOk v
  | _ => true

lemma anything_varOk : ∀ (n : Nat) (s r : List Char) (el : SnippetElement),
    anything n s = .ok (r, el) → varOk el = true := by
  intro n
  induction n with
  | zero =>
    intro s r el h
    simp [anything] at h
  | succ n ih =>
    intro s r el h
    unfold anything at h
    rcases por_ok h with h1 | h1
    · obtain ⟨k, hk⟩ := tabstop_shape h1
      rw [hk]
      rfl
    · rcases por_ok h1 with h2 | h2
      · obtain ⟨k, v, frag, rem, hel, hv⟩ := placeholder_shape h2
        subst hel
        simpa [varOk] using ih frag rem v hv
      · rcases por_ok h2 with h3 | h3
        · obtain ⟨k, cs, hel, _⟩ := choice_shape h3
          rw [hel]
          rfl
        · rcases por_ok h3 with h4 | h4
          · obtain ⟨nm, d, rx, hel, hd⟩ := variable_shape h4
            subst hel
            rcases hd with rfl | rfl
            · simp [varOk]
            · simp [varOk]
          · obtain ⟨t, ht⟩ := text_shape h4
            rw [ht]
            rfl

lemma parse_ok_inv {s : List Char} {els : List SnippetElement}
    (h : parse s = .ok els) : ∃ r, snippet s = .ok (r, els) := by
  unfold parse at h
  cases h2 : snippet s with
  | ok x =>
    rw [h2] at h
    obtain ⟨r0, a0⟩ := x
    simp only [Except.map, Except.ok.injEq] at h
    exact ⟨r0, by rw [h]⟩
  | error e =>
    rw [h2] at h
    simp [Except.map] at h

end Snip

namespace Snip

lemma patternText_all {s : List Char} (hne : s ≠ []) (h : ∀ c ∈ s, c ≠ '$') :
    patternText s = .ok ([], s) := by
  have htw : s.takeWhile (fun c => !(c == '$')) = s :=
    List.takeWhile_eq_self_iff.mpr (by
      intro c hc
      simpa using h c hc)
  have hdw : s.dropWhile (fun c => !(c == '$')) = [] :=
    List.dropWhile_eq_nil_iff.mpr (by
      intro c hc
      simpa using h c hc)
  unfold patternText
  rw [htw, hdw]
  cases s with
  | nil => exact absurd rfl hne
  | cons c cs => rfl

lemma patternDigit_all {s : List Char} (hne : s ≠ [])
    (h : ∀ c ∈ s, c.isDigit = true) : patternDigit s = .ok ([], s) := by
  have htw : s.takeWhile Char.isDigit = s := List.takeWhile_eq_self_iff.mpr h
  have hdw : s.dropWhile Char.isDigit = [] := List.dropWhile_eq_nil_iff.mpr h
  unfold patternDigit
  rw [htw, hdw]
  cases s with
  | nil => exact absurd rfl hne
  | cons c cs => rfl

lemma tabstop_no_dollar {s : List Char} (hne : s ≠ []) (h : ∀ c ∈ s, c ≠ '$') :
    tabstop s = .error s := by
  have h1 : lit ("$".toList) s = .error s := lit_err_of_head rfl hne h
  have h2 : lit obr s = .error s := lit_err_of_head rfl hne h
  simp only [tabstop, right, pmap, pseq, por, h1, h2]

lemma placeholder_no_dollar (P : Parser SnippetElement) {s : List Char}
    (hne : s ≠ []) (h : ∀ c ∈ s, c ≠ '$') : placeholder P s = .error s := by
  have h2 : lit obr s = .error s := lit_err_of_head rfl hne h
  simp only [placeholder, pmap, pseq, h2]

lemma choice_no_dollar {s : List Char} (hne : s ≠ []) (h : ∀ c ∈ s, c ≠ '$') :
    choice s = .error s := by
  have h2 : lit obr s = .error s := lit_err_of_head rfl hne h
  simp only [choice, pmap, pseq, h2]

lemma variable_no_dollar {s : List Char} (hne : s ≠ []) (h : ∀ c ∈ s, c ≠ '$') :
    variableP s = .error s := by
  have h1 : lit ("$".toList) s = .error s := lit_err_of_head rfl hne h
  have h2 : lit obr s = .error s := lit_err_of_head rfl hne h
  simp only [variableP, variable1, variable2, variable3, right, pmap, pseq, por, h1, h2]

lemma anything_no_dollar (n : Nat) {s : List Char} (hne : s ≠ [])
    (h : ∀ c ∈ s, c ≠ '$') : anything (n + 1) s = .ok ([], .text s) := by
  have h1 := tabstop_no_dollar hne h
  have h2 := placeholder_no_dollar (anything n) hne h
  have h3 := choice_no_dollar hne h
  have h4 := variable_no_dollar hne h
  have h5 : text s = .ok ([], .text s) := by
    unfold text
    exact pmap_ok_eq (patternText_all hne h)
  unfold anything
  rw [por_err_left h1, por_err_left h2, por_err_left h3, por_err_left h4]
  exact h5

end Snip

namespace Snip

/-- C1 (corrected): the claim asserts that every non-empty digit run parses
successfully with no upper bound on its value; in the source, `digit` is
`filter_map(pattern(&DIGIT), |s| s.parse::<usize>().ok())`, and
`str::parse::<usize>` rejects values that overflow `usize`, so the digit run
denoting `2 ^ 64` fails. This counterexample evaluates `digit` on that run. -/
theorem claim1_counterexample :
    digit ("18446744073709551616".toList) = .error ("18446744073709551616".toList) := by
  rfl

/-- C1 (amended): on any non-empty all-digit input, the digit production
succeeds with the denoted value exactly when that value fits in `usize`
(below `2 ^ 64`), and fails — with the input handed back unmodified — when
the value does not fit. -/
theorem claim1_amended_digit_bounded (s : List Char) (hne : s ≠ [])
    (hd : ∀ c ∈ s, c.isDigit = true) :
    (digitsVal s < usizeBound → digit s = .ok ([], digitsVal s)) ∧
    (usizeBound ≤ digitsVal s → digit s = .error s) := by
  have hp := patternDigit_all hne hd
  have hE : s.isEmpty = false := by
    cases s with
    | nil => exact absurd rfl hne
    | cons c cs => rfl
  have hA : s.all Char.isDigit = true := List.all_eq_true.mpr hd
  constructor
  · intro hlt
    have hval : parseUsize s = some (digitsVal s) := by
      unfold parseUsize
      simp [hE, hA, hlt]
    simp [digit, pfilterMap, hp, hval]
  · intro hge
    have hval : parseUsize s = none := by
      unfold parseUsize
      simp [hE, hA, Nat.not_lt.mpr hge]
    simp [digit, pfilterMap, hp, hval]

/-- Witness for C1 (amended) at the digit run `7`. -/
theorem claim1_amended_digit_bounded_witness :
    digit ("7".toList) = .ok ([], digitsVal ("7".toList)) :=
  (claim1_amended_digit_bounded ("7".toList) (by decide) (by decide)).1 (by decide)

/-- C2 (confirmed): no partial consumption on failure — whenever any of the
grammar productions (tabstop, placeholder, choice, variable, text, format,
regex, anything) fails on an input slice, the slice handed back for the next
alternative is the original input, unmodified. -/
theorem claim2_no_partial_consumption (n : Nat) (s e : List Char) :
    (tabstop s = .error e → e = s) ∧
    (placeholder (anything n) s = .error e → e = s) ∧
    (choice s = .error e → e = s) ∧
    (variableP s = .error e → e = s) ∧
    (text s = .error e → e = s) ∧
    (format s = .error e → e = s) ∧
    (regex s = .error e → e = s) ∧
    (anything n s = .error e → e = s) :=
  ⟨failsClean_tabstop s e, failsClean_placeholder _ s e, failsClean_choice s e,
   failsClean_variableP s e, failsClean_text s e, failsClean_format s e,
   failsClean_regex s e, failsClean_anything n s e⟩

/-- Witness for C2: on the one-character input `$` all eight productions
fail, and each hands back exactly that input. -/
theorem claim2_no_partial_consumption_witness :
    ("$".toList = ("$".toList : List Char)) ∧
    ("$".toList = ("$".toList : List Char)) ∧
    ("$".toList = ("$".toList : List Char)) ∧
    ("$".toList = ("$".toList : List Char)) ∧
    ("$".toList = ("$".toList : List Char)) ∧
    ("$".toList = ("$".toList : List Char)) ∧
    ("$".toList = ("$".toList : List Char)) ∧
    ("$".toList = ("$".toList : List Char)) := by
  have h := claim2_no_partial_consumption 1 ("$".toList) ("$".toList)
  exact ⟨h.1 (by rfl), h.2.1 (by rfl), h.2.2.1 (by rfl), h.2.2.2.1 (by rfl),
    h.2.2.2.2.1 (by rfl), h.2.2.2.2.2.1 (by rfl), h.2.2.2.2.2.2.1 (by rfl),
    h.2.2.2.2.2.2.2 (by rfl)⟩

/-- C3 (confirmed): the top level does not require total input consumption —
whenever the snippet production succeeds, `parse` returns exactly the
produced elements and discards whatever input remains unconsumed. -/
theorem claim3_parse_discards_trailing (s r : List Char) (els : List SnippetElement)
    (h : snippet s = .ok (r, els)) : parse s = .ok els := by
  unfold parse
  rw [h]
  rfl

/-- Witness for C3 on an input whose suffix matches no production: the
snippet production consumes only the leading text and `parse` still
succeeds, silently dropping the unparsable remainder. -/
theorem claim3_parse_discards_trailing_witness :
    parse ("a$\x7b1".toList) = .ok [.text ("a".toList)] :=
  claim3_parse_discards_trailing ("a$\x7b1".toList) ("$\x7b1".toList)
    [.text ("a".toList)] (by rfl)

/-- C4 (confirmed): a successful regex production carries a replacement that
was obtained by re-parsing the scanned fragment in its entirety as one or
more format items — so the replacement list is never empty, and the inner
re-parse consumed the whole fragment (empty remainder). -/
theorem claim4_regex_replacement (s r : List Char) (rg : Regex)
    (h : regex s = .ok (r, rg)) :
    rg.replacement ≠ [] ∧ ∃ frag, one_or_more format frag = .ok ([], rg.replacement) := by
  unfold regex at h
  obtain ⟨x, hx, hel⟩ := pmap_ok h
  obtain ⟨m1, hA, _⟩ := pseq_ok hx
  obtain ⟨m2, hB, _⟩ := pseq_ok hA
  obtain ⟨m3, _, hC⟩ := pseq_ok hB
  unfold replacementP at hC
  obtain ⟨frag, _, hD⟩ := reparse_ok hC
  subst hel
  exact ⟨(one_or_more_ok hD).1, frag, hD⟩

/-- Witness for C4 at `/ab/$1/x}`: the produced replacement is the single
capture item, and the fragment `$1` re-parses completely. -/
theorem claim4_regex_replacement_witness :
    ([FormatItem.capture 1] : List FormatItem) ≠ [] ∧
    ∃ frag, one_or_more format frag = .ok ([], [FormatItem.capture 1]) :=
  claim4_regex_replacement ("/ab/$1/x\x7d".toList) ("\x7d".toList)
    { value := ("ab".toList), replacement := [FormatItem.capture 1],
      options := some ("x".toList) } (by rfl)

/-- C5 (confirmed): the placeholder re-parses the text scanned up to the
next closing brace with the full grammar and keeps only the first produced
element — on the fragment `a$2` the grammar yields the text element `a`
leaving `$2` unconsumed, and the whole input parses to a single placeholder
whose value is just that first element. -/
theorem claim5_placeholder_first_element :
    anything 8 ("a$2".toList) = .ok (("$2".toList), .text ("a".toList)) ∧
    parse ("$\x7b1:a$2\x7d".toList) = .ok [.placeholder 1 (.text ("a".toList))] :=
  ⟨by rfl, by rfl⟩

/-- C6 (confirmed): every variable element produced by a successful parse —
including variables nested arbitrarily deep inside placeholder values — has
its default field and its regex field mutually exclusive. -/
theorem claim6_variable_mutual_exclusion (s : List Char) (els : List SnippetElement)
    (h : parse s = .ok els) : ∀ el ∈ els, varOk el = true := by
  obtain ⟨r, hs⟩ := parse_ok_inv h
  unfold snippet at hs
  obtain ⟨-, hmem⟩ := one_or_more_ok hs
  intro el hel
  obtain ⟨s2, r2, h2⟩ := hmem el hel
  exact anything_varOk _ s2 r2 el h2

/-- Witness for C6 at `$x`. -/
theorem claim6_variable_mutual_exclusion_witness :
    varOk (.variableE ("x".toList) none none) = true :=
  claim6_variable_mutual_exclusion ("$x".toList) [.variableE ("x".toList) none none]
    (by rfl) _ (List.mem_singleton_self _)

/-- C7 (confirmed): on every non-empty input containing no dollar sign,
`parse` succeeds with exactly one text element spanning the whole input. -/
theorem claim7_text_only (s : List Char) (hne : s ≠ []) (h : ∀ c ∈ s, c ≠ '$') :
    parse s = .ok [.text s] := by
  have ha : anything (s.length + 1) s = .ok ([], .text s) := anything_no_dollar _ hne h
  unfold parse snippet one_or_more
  rw [ha]
  rfl

/-- Witness for C7 at `ab`. -/
theorem claim7_text_only_witness : parse ("ab".toList) = .ok [.text ("ab".toList)] :=
  claim7_text_only ("ab".toList) (by decide) (by decide)

/-- C8 (confirmed): `parse` fails on the empty string, and every `parse`
failure carries the original input as the error payload — in particular the
error payload for the empty string is the empty string. -/
theorem claim8_parse_failure_payload :
    (∀ s e : List Char, parse s = .error e → e = s) ∧ parse [] = .error [] := by
  constructor
  · intro s e h
    unfold parse at h
    cases h2 : snippet s with
    | ok x =>
      rw [h2] at h
      obtain ⟨r0, a0⟩ := x
      simp [Except.map] at h
    | error e2 =>
      rw [h2] at h
      simp only [Except.map] at h
      cases h
      unfold snippet at h2
      exact failsClean_one_or_more _ s _ h2
  · rfl

/-- Witness for C8: the failure payload for the empty input equals the
empty input. -/
theorem claim8_parse_failure_payload_witness : ([] : List Char) = [] :=
  claim8_parse_failure_payload.1 [] [] claim8_parse_failure_payload.2

/-- C9 (corrected): the claim asserts `parse("${name:}")` succeeds with an
empty default; in fact it fails, because the default-fragment scanner
(take-until the closing brace) fails on a zero-length match — as the
source's own `regex_capture_replace` test requires. -/
theorem claim9_counterexample :
    parse ("$\x7bname:\x7d".toList) = .error ("$\x7bname:\x7d".toList) := by
  rfl

/-- C9 (amended): empty defaults are rejected symmetrically at the public
interface — both `parse("${name:}")` and `parse("${1:}")` fail, each
returning its original input as the error payload. -/
theorem claim9_amended_empty_defaults :
    parse ("$\x7bname:\x7d".toList) = .error ("$\x7bname:\x7d".toList) ∧
    parse ("$\x7b1:\x7d".toList) = .error ("$\x7b1:\x7d".toList) :=
  ⟨by rfl, by rfl⟩

/-- C10 (corrected): the claim asserts `parse("${1||}")` succeeds with the
single empty alternative; in fact it fails, because the per-alternative
scanner (take-until `,` or `|`) fails when it would consume zero
characters. -/
theorem claim10_counterexample :
    parse ("$\x7b1||\x7d".toList) = .error ("$\x7b1||\x7d".toList) := by
  rfl

/-- C10 (amended): the alternatives list of every successfully parsed
choice element is non-empty, but an empty alternative is not accepted:
`parse("${1||}")` fails outright. -/
theorem claim10_amended_choice_alternatives (s r : List Char) (el : SnippetElement)
    (h : choice s = .ok (r, el)) :
    (∃ k cs, el = .choice k cs ∧ cs ≠ []) ∧
    parse ("$\x7b1||\x7d".toList) = .error ("$\x7b1||\x7d".toList) :=
  ⟨choice_shape h, by rfl⟩

/-- Witness for C10 (amended) at `${1|a|}`. -/
theorem claim10_amended_choice_alternatives_witness :
    (∃ k cs, SnippetElement.choice 1 [("a".toList)] = .choice k cs ∧ cs ≠ []) ∧
    parse ("$\x7b1||\x7d".toList) = .error ("$\x7b1||\x7d".toList) :=
  claim10_amended_choice_alternatives ("$\x7b1|a|\x7d".toList) []
    (.choice 1 [("a".toList)]) (by rfl)

end Snip
